import Mathlib

/-!
Verification of the S3 data-acquisition pipeline (`src/Projects/S3/utils.py`)
against its natural-language specification.

The Python functions are shallowly embedded as total Lean functions.
Network interaction is modelled by explicit environments: a map from the
attempt index to the HTTP outcome of that attempt (for `execute_query`),
and per-query response tables (for the pull-request aggregation).
Machine floats (`duration_hours`) are modelled over `ℚ`; Unix timestamps
are `Int` seconds.
-/

namespace S3

/-! ## Query Executor (`execute_query`, utils.py lines 27-78)

One HTTP attempt either yields a response (status code, optional
`x-ratelimit-reset` header value, the current wall-clock second at that
attempt, and an abstract parsed JSON body represented by a `Nat`) or a
network-level `requests.exceptions.RequestException`. -/

/-- The outcome of one `requests.post` call, as seen by `execute_query`. -/
inductive HttpAttempt where
  | response (status : Nat) (resetHeader : Option Int) (now : Int) (body : Nat)
  | netError
deriving DecidableEq, Repr

/-- What a whole `execute_query` call did: the returned value (`none` is the
Python `None` sentinel), the number of POST attempts issued, and the sleep
durations (in seconds) in the order they were performed. -/
structure ExecOutcome where
  result : Option Nat
  attempts : Nat
  sleeps : List Int
deriving DecidableEq, Repr

/-- The retry loop of `execute_query`.  `retries` is the Python `retries`
counter (which also counts POSTs already made, since every branch of the
loop body increments it exactly once or returns); `fuel` is the number of
loop iterations still allowed; the caller maintains
`fuel = maxRetries - retries`, which makes this function extensionally
equal to the Python `while retries < max_retries` loop.

Branches, in source order:
* status 403: read the reset header (`0` when absent), sleep
  `max (reset - now + 5) 60`, increment `retries`, loop;
* status 5xx: sleep `retryDelay * 2 ^ retries`, increment `retries`, loop;
* any other status ≥ 400: `response.raise_for_status()` raises
  `requests.exceptions.HTTPError`, which is a `RequestException` and is
  therefore caught by the function's own `except` clause: if
  `retries >= max_retries - 1` return `None`, else increment `retries`,
  sleep `retryDelay * 2 ^ retries` (with the already incremented counter)
  and loop — exactly like a network error;
* status < 400: return the parsed body;
* network error: same as the caught-exception path above. -/
def execGo (resp : Nat → HttpAttempt) (maxRetries retryDelay : Nat) :
    Nat → Nat → ExecOutcome
  | retries, 0 => ⟨none, retries, []⟩
  | retries, fuel + 1 =>
    match resp retries with
    | HttpAttempt.netError =>
      if maxRetries - 1 ≤ retries then ⟨none, retries + 1, []⟩
      else
        let s : Int := (retryDelay : Int) * 2 ^ (retries + 1)
        let o := execGo resp maxRetries retryDelay (retries + 1) fuel
        ⟨o.result, o.attempts, s :: o.sleeps⟩
    | HttpAttempt.response status reset now body =>
      if status = 403 then
        let s : Int := max (reset.getD 0 - now + 5) 60
        let o := execGo resp maxRetries retryDelay (retries + 1) fuel
        ⟨o.result, o.attempts, s :: o.sleeps⟩
      else if 500 ≤ status ∧ status < 600 then
        let s : Int := (retryDelay : Int) * 2 ^ retries
        let o := execGo resp maxRetries retryDelay (retries + 1) fuel
        ⟨o.result, o.attempts, s :: o.sleeps⟩
      else if 400 ≤ status then
        if maxRetries - 1 ≤ retries then ⟨none, retries + 1, []⟩
        else
          let s : Int := (retryDelay : Int) * 2 ^ (retries + 1)
          let o := execGo resp maxRetries retryDelay (retries + 1) fuel
          ⟨o.result, o.attempts, s :: o.sleeps⟩
      else ⟨some body, retries + 1, []⟩

/-- `execute_query(query, variables, max_retries, retry_delay, timeout)`:
runs the retry loop starting from `retries = 0`.  The GraphQL document,
variables and timeout only shape each attempt's outcome, which the
environment `resp` provides directly. -/
def execute_query (resp : Nat → HttpAttempt) (maxRetries retryDelay : Nat) :
    ExecOutcome :=
  execGo resp maxRetries retryDelay 0 maxRetries

/-- A response is a server error when its status code is in the 5xx range. -/
def isServerError (a : HttpAttempt) : Prop :=
  ∃ st reset now body,
    a = HttpAttempt.response st reset now body ∧ 500 ≤ st ∧ st < 600

theorem execGo_all5xx (resp : Nat → HttpAttempt) (maxR delay : Nat) :
    ∀ fuel retries, fuel = maxR - retries → retries ≤ maxR →
      (∀ k, retries ≤ k → k < maxR → isServerError (resp k)) →
      execGo resp maxR delay retries fuel =
        ⟨none, maxR,
          (List.range fuel).map (fun i => (delay : Int) * 2 ^ (retries + i))⟩ := by
  intro fuel
  induction fuel with
  | zero =>
    intro retries hfuel hle _
    have : retries = maxR := by omega
    subst this
    simp [execGo]
  | succ fuel ih =>
    intro retries hfuel hle hresp
    have hlt : retries < maxR := by omega
    obtain ⟨st, reset, now, body, hr, h5, h6⟩ := hresp retries le_rfl hlt
    have hst3 : ¬ st = 403 := by omega
    have hst5 : 500 ≤ st ∧ st < 600 := ⟨h5, h6⟩
    have hrec := ih (retries + 1) (by omega) (by omega)
      (fun k hk hk' => hresp k (by omega) hk')
    have hs : (delay : Int) * 2 ^ retries
          :: List.map (fun i => (delay : Int) * 2 ^ (retries + 1 + i)) (List.range fuel)
        = List.map (fun i => (delay : Int) * 2 ^ (retries + i)) (List.range (fuel + 1)) := by
      rw [List.range_succ_eq_map, List.map_cons, List.map_map]
      congr 1
      apply List.map_congr_left
      intro a _
      simp only [Function.comp_apply]
      congr 2
      omega
    simp only [execGo, hr]
    rw [if_neg hst3, if_pos hst5, hrec, hs]

/-- An endpoint that answers HTTP 500 on every attempt. -/
def resp500 : Nat → HttpAttempt := fun _ => HttpAttempt.response 500 none 0 0

/-- An endpoint that answers HTTP 403 (reset hint 0, clock 0) on the first
five attempts and succeeds from the sixth attempt on. -/
def resp403burst : Nat → HttpAttempt := fun k =>
  if k < 5 then HttpAttempt.response 403 (some 0) 0 0
  else HttpAttempt.response 200 none 0 99

/-- An endpoint that answers HTTP 403 once (reset hint 20, clock 0) and
succeeds from the second attempt on. -/
def resp403once : Nat → HttpAttempt := fun k =>
  if k = 0 then HttpAttempt.response 403 (some 20) 0 0
  else HttpAttempt.response 200 none 0 77

/-- An endpoint that answers HTTP 404 on every attempt. -/
def resp404 : Nat → HttpAttempt := fun _ => HttpAttempt.response 404 none 0 0

/-- C4: if every attempt observes an HTTP 5xx response, `execute_query`
returns the `None` sentinel after exactly `max_retries` POST attempts, the
sleep durations follow the exponential schedule `retry_delay * 2 ^ attempt`,
and (for a positive `retry_delay`) they are strictly increasing. -/
theorem execute_query_server_error_exhaustion
    (resp : Nat → HttpAttempt) (maxR delay : Nat)
    (hresp : ∀ k, k < maxR → isServerError (resp k)) (hdelay : 0 < delay) :
    execute_query resp maxR delay =
      ⟨none, maxR, (List.range maxR).map (fun k => (delay : Int) * 2 ^ k)⟩ ∧
    (execute_query resp maxR delay).sleeps.Pairwise (· < ·) := by
  have h := execGo_all5xx resp maxR delay maxR 0 (by omega) (by omega)
    (fun k _ hk => hresp k hk)
  have hzero : (fun i => (delay : Int) * 2 ^ (0 + i))
      = fun k => (delay : Int) * 2 ^ k := by
    funext i
    rw [Nat.zero_add]
  have hmain : execute_query resp maxR delay =
      ⟨none, maxR, (List.range maxR).map (fun k => (delay : Int) * 2 ^ k)⟩ := by
    rw [execute_query, h, hzero]
  refine ⟨hmain, ?_⟩
  rw [hmain]
  refine List.Pairwise.map _ ?_ (List.pairwise_lt_range maxR)
  intro a b hab
  have h2 : (2 : Int) ^ a < 2 ^ b := by
    exact pow_lt_pow_right₀ (by norm_num) hab
  exact mul_lt_mul_of_pos_left h2 (by exact_mod_cast hdelay)

/-- Witness for C4 at a concrete all-500 endpoint with the default
`max_retries = 5` and `retry_delay = 10`. -/
theorem execute_query_server_error_exhaustion_witness :
    execute_query resp500 5 10 =
      ⟨none, 5, (List.range 5).map (fun k => (10 : Int) * 2 ^ k)⟩ ∧
    (execute_query resp500 5 10).sleeps.Pairwise (· < ·) :=
  execute_query_server_error_exhaustion resp500 5 10
    (fun _ _ => ⟨500, none, 0, 0, rfl, by norm_num, by norm_num⟩) (by norm_num)

/-- C2 (amended): a 403 response makes `execute_query` sleep
`max (reset - now + 5) 60` seconds and loop for another attempt, but the
403 also increments the `retries` counter, so it consumes one unit of the
`max_retries` budget (the continuation runs with fuel `max_retries - 1`). -/
theorem execute_query_rate_limit_sleep_and_retry
    (resp : Nat → HttpAttempt) (maxR delay : Nat)
    (reset : Option Int) (now : Int) (body : Nat)
    (h0 : resp 0 = HttpAttempt.response 403 reset now body) (hm : 0 < maxR) :
    execute_query resp maxR delay =
      ⟨(execGo resp maxR delay 1 (maxR - 1)).result,
       (execGo resp maxR delay 1 (maxR - 1)).attempts,
       max (reset.getD 0 - now + 5) 60 :: (execGo resp maxR delay 1 (maxR - 1)).sleeps⟩ := by
  obtain ⟨m, rfl⟩ : ∃ m, maxR = m + 1 := ⟨maxR - 1, by omega⟩
  simp only [execute_query, execGo, h0]
  simp

/-- Witness for the amended C2: one 403 (reset hint 20 at clock 0) then
success; the executor sleeps `max (20 - 0 + 5) 60 = 60` seconds and the
second attempt returns the successful body. -/
theorem execute_query_rate_limit_sleep_and_retry_witness :
    execute_query resp403once 5 10 =
      ⟨(execGo resp403once 5 10 1 4).result,
       (execGo resp403once 5 10 1 4).attempts,
       max ((some (20 : Int)).getD 0 - 0 + 5) 60 :: (execGo resp403once 5 10 1 4).sleeps⟩ :=
  execute_query_rate_limit_sleep_and_retry resp403once 5 10 (some 20) 0 0 rfl (by norm_num)

/-- Counterexample to C2 as stated: with `max_retries = 5`, five 403
responses in a row exhaust the retry budget — `execute_query` returns the
`None` permanent-failure sentinel after exactly 5 attempts even though the
endpoint would have succeeded on the sixth attempt.  If 403 did not count
toward the `max_retries` bound, the executor would have kept looping and
returned the successful body. -/
theorem execute_query_rate_limit_counts_counterexample :
    execute_query resp403burst 5 10 = ⟨none, 5, [60, 60, 60, 60, 60]⟩ := by
  decide

/-- C3 evidence: on an endpoint that always answers HTTP 404,
`raise_for_status` raises `requests.exceptions.HTTPError`, which the
function's own `except requests.exceptions.RequestException` clause
catches; `execute_query` therefore retries with exponential backoff
(sleeping 20, 40, 80, 160 seconds) and after 5 attempts returns the same
`None` sentinel used for retry exhaustion — not a distinct, fatal,
no-retry failure. -/
theorem execute_query_client_error_retries :
    execute_query resp404 5 10 = ⟨none, 5, [20, 40, 80, 160]⟩ := by
  decide

/-! ## Detail Aggregator (`_process_single_repository`, utils.py lines 267-382)

Pull-request records.  Timestamps are Unix seconds (`Int`); the query
`query_pull_requests` returns `number`, `state`, `createdAt`, `mergedAt`,
`closedAt` per node (states filter `[MERGED, CLOSED]`). -/

inductive PRState where
  | merged
  | closed
deriving DecidableEq, Repr

/-- One node of the `pullRequests` connection, as fetched by
`fetch_pull_requests`. -/
structure PRNode where
  number : Nat
  state : PRState
  createdAt : Int
  mergedAt : Option Int
  closedAt : Option Int
deriving DecidableEq, Repr

/-- The fields returned by `query_pull_request_details`. -/
structure PRDetails where
  title : String
  bodyText : String
  changedFiles : Nat
  additions : Nat
  deletions : Nat
deriving DecidableEq, Repr

/-- A GraphQL connection counter, e.g. `reviews: { totalCount: n }`. -/
structure Counter where
  totalCount : Nat
deriving DecidableEq, Repr

/-- Repository identity `(owner, name)`. -/
structure RepoId where
  owner : String
  name : String
deriving DecidableEq, Repr

/-- The enriched record appended to `repo_prs`: the original node merged
with the detail fields, the three nested counters (comments and
participants stay absent — `none` — when their fetch failed), the owning
repository stamp and the computed `duration_hours`. -/
structure DetailItem where
  node : PRNode
  details : PRDetails
  reviews : Counter
  comments : Option Counter
  participants : Option Counter
  repository : RepoId
  duration_hours : ℚ
deriving DecidableEq, Repr

/-- One page of the `pullRequests` connection. -/
structure PRPage where
  nodes : List (Option PRNode)
  hasNextPage : Bool
deriving DecidableEq, Repr

/-- The remote side seen by one `_process_single_repository` run: the
successive `fetch_pull_requests` results (`none` models a failed fetch or
a null repository — both `break`), and per-PR-number results of the four
dependent queries (`none` models a failed query, missing data key, null
repository or null pullRequest — all skipped the same way). -/
structure PREnv where
  pages : List (Option PRPage)
  reviewCount : Nat → Option Counter
  detailFields : Nat → Option PRDetails
  commentsCount : Nat → Option Counter
  participantsCount : Nat → Option Counter

/-- The terminal timestamp of a PR: `mergedAt` when the state is `MERGED`
and `mergedAt` is present, else `closedAt`; `none` means the item has no
determinable terminal state and is skipped. -/
def prEndTime (pr : PRNode) : Option Int :=
  match pr.state, pr.mergedAt with
  | PRState.merged, some m => some m
  | _, _ => pr.closedAt

/-- Processing of a single node of the inner `for pr in pr_data["nodes"]`
loop: compute `duration_hours`; if it exceeds 1, fetch the review count
(failure skips the item); if `reviews_count >= 1`, fetch the detail
fields (failure skips the item), then the comment and participant counts
(failures tolerated), and build the enriched record.  Returns `some`
exactly when the item is appended to `repo_prs`. -/
def durationHours (createdAt endTime : Int) : ℚ :=
  ((endTime - createdAt : Int) : ℚ) / 3600

def processPR (env : PREnv) (repo : RepoId) (pr : PRNode) : Option DetailItem :=
  match prEndTime pr with
  | none => none
  | some endTime =>
    if 1 < durationHours pr.createdAt endTime then
      match env.reviewCount pr.number with
      | none => none
      | some rc =>
        if 1 ≤ rc.totalCount then
          match env.detailFields pr.number with
          | none => none
          | some det =>
            some { node := pr, details := det, reviews := rc,
                   comments := env.commentsCount pr.number,
                   participants := env.participantsCount pr.number,
                   repository := repo,
                   duration_hours := durationHours pr.createdAt endTime }
        else none
    else none

/-- The inner loop over one page's nodes with `quota` items still allowed
(`quota = max_prs_per_repo - repo_pr_count`); null nodes are skipped, and
the loop breaks once the quota is consumed. -/
def processNodes (env : PREnv) (repo : RepoId) :
    List (Option PRNode) → Nat → List DetailItem
  | _, 0 => []
  | [], _ + 1 => []
  | none :: rest, q + 1 => processNodes env repo rest (q + 1)
  | some pr :: rest, q + 1 =>
    match processPR env repo pr with
    | none => processNodes env repo rest (q + 1)
    | some item => item :: processNodes env repo rest q

/-- The outer `while repo_pr_count < max_prs_per_repo` page loop: a failed
or null page fetch breaks, an empty node list breaks, and after a page the
loop continues only while `hasNextPage` holds and quota remains. -/
def processPages (env : PREnv) (repo : RepoId) :
    List (Option PRPage) → Nat → List DetailItem
  | _, 0 => []
  | [], _ + 1 => []
  | none :: _, _ + 1 => []
  | some pg :: rest, q + 1 =>
    if pg.nodes.isEmpty then []
    else
      let items := processNodes env repo pg.nodes (q + 1)
      if pg.hasNextPage && decide (items.length < q + 1) then
        items ++ processPages env repo rest (q + 1 - items.length)
      else items

/-- `_process_single_repository(repo, ...)`: runs the page loop with the
per-repository PR cap and returns the accumulated `repo_prs`. -/
def process_single_repository (env : PREnv) (repo : RepoId) (maxPRs : Nat) :
    List DetailItem :=
  processPages env repo env.pages maxPRs

/-- Anatomy of an accepted item: `processPR` returns `some item` only when
the duration gate and the review gate both passed and the detail-fields
query succeeded; comments and participants are whatever their (possibly
failed) fetches returned. -/
theorem processPR_eq_some {env : PREnv} {repo : RepoId} {pr : PRNode}
    {item : DetailItem} (h : processPR env repo pr = some item) :
    item.node = pr ∧ 1 < item.duration_hours ∧ 1 ≤ item.reviews.totalCount ∧
    env.detailFields pr.number = some item.details ∧
    item.comments = env.commentsCount pr.number ∧
    item.participants = env.participantsCount pr.number := by
  unfold processPR at h
  split at h
  next => exact Option.noConfusion h
  next endTime hend =>
    split at h
    next hd =>
      split at h
      next => exact Option.noConfusion h
      next rc hrc =>
        split at h
        next hrev =>
          split at h
          next => exact Option.noConfusion h
          next det hdet =>
            cases h
            exact ⟨rfl, hd, hrev, hdet, rfl, rfl⟩
        next => exact Option.noConfusion h
    next => exact Option.noConfusion h

theorem mem_processNodes {env : PREnv} {repo : RepoId} :
    ∀ {nodes : List (Option PRNode)} {q : Nat} {item : DetailItem},
      item ∈ processNodes env repo nodes q →
      ∃ pr, processPR env repo pr = some item
  | [], q + 1, _, h => by simp [processNodes] at h
  | _, 0, _, h => by simp [processNodes] at h
  | none :: rest, q + 1, item, h => mem_processNodes (by
      rw [processNodes] at h
      exact h)
  | some pr :: rest, q + 1, item, h => by
      rw [processNodes] at h
      split at h
      next => exact mem_processNodes h
      next it hit =>
        rcases List.mem_cons.mp h with h | h
        · exact ⟨pr, h ▸ hit⟩
        · exact mem_processNodes h

theorem mem_processPages {env : PREnv} {repo : RepoId} :
    ∀ {pages : List (Option PRPage)} {q : Nat} {item : DetailItem},
      item ∈ processPages env repo pages q →
      ∃ pr, processPR env repo pr = some item
  | [], q + 1, _, h => by simp [processPages] at h
  | _, 0, _, h => by simp [processPages] at h
  | none :: rest, q + 1, _, h => by simp [processPages] at h
  | some pg :: rest, q + 1, item, h => by
      simp only [processPages] at h
      split at h
      next => exact absurd h (List.not_mem_nil item)
      next =>
        split at h
        next =>
          rcases List.mem_append.mp h with h | h
          · exact mem_processNodes h
          · exact mem_processPages h
        next => exact mem_processNodes h

/-- Every item in the result of `_process_single_repository` was accepted
by `processPR`. -/
theorem mem_process_single_repository {env : PREnv} {repo : RepoId}
    {maxPRs : Nat} {item : DetailItem}
    (h : item ∈ process_single_repository env repo maxPRs) :
    ∃ pr, processPR env repo pr = some item :=
  mem_processPages h

/-- `x.get('totalCount', 0) if isinstance(x, dict) else 0`, the default
applied by the analysis functions (`analyze_pr_status_vs_interactions`,
`analyze_reviews_vs_size`, ...) when they read a nested counter: an
absent counter reads as zero downstream. -/
def counterOrZero : Option Counter → Nat
  | some c => c.totalCount
  | none => 0

/-- Repository and environment realizing the spec's concrete Detail
Aggregator scenario: PR 1 merged after 30 minutes (rejected by the
duration gate), PR 2 closed after 2 hours with 0 reviews (rejected by the
review gate), PR 3 merged after 2 hours with 2 reviews (accepted). -/
def envC1 : PREnv :=
  { pages := [some ⟨[some ⟨1, PRState.merged, 0, some 1800, none⟩,
                     some ⟨2, PRState.closed, 0, none, some 7200⟩,
                     some ⟨3, PRState.merged, 0, some 7200, none⟩], false⟩],
    reviewCount := fun n =>
      if n = 2 then some ⟨0⟩ else if n = 3 then some ⟨2⟩ else none,
    detailFields := fun _ => some ⟨"t", "b", 1, 2, 3⟩,
    commentsCount := fun _ => some ⟨4⟩,
    participantsCount := fun _ => some ⟨5⟩ }

def repoC1 : RepoId := ⟨"octo", "hello"⟩

/-- The single record accepted from `envC1` (note `duration_hours = 2`). -/
def itemC1 : DetailItem :=
  { node := ⟨3, PRState.merged, 0, some 7200, none⟩,
    details := ⟨"t", "b", 1, 2, 3⟩,
    reviews := ⟨2⟩, comments := some ⟨4⟩, participants := some ⟨5⟩,
    repository := repoC1, duration_hours := 2 }

/-- Evaluation of the spec scenario: only PR 3 is accepted. -/
theorem envC1_eval : process_single_repository envC1 repoC1 50 = [itemC1] := by
  norm_num [process_single_repository, envC1, repoC1, itemC1, processPages,
    processNodes, processPR, prEndTime, durationHours, DetailItem.mk.injEq,
    Counter.mk.injEq, PRDetails.mk.injEq, PRNode.mk.injEq]

/-- C1: every Detail Item in the list returned by
`_process_single_repository` satisfies the admission invariant
`duration_hours > 1` and `reviews.totalCount >= 1`; an item failing either
gate is never appended. -/
theorem detail_item_admission_invariant
    (env : PREnv) (repo : RepoId) (maxPRs : Nat) (item : DetailItem)
    (h : item ∈ process_single_repository env repo maxPRs) :
    1 < item.duration_hours ∧ 1 ≤ item.reviews.totalCount := by
  obtain ⟨pr, hpr⟩ := mem_process_single_repository h
  obtain ⟨-, hd, hr, -, -, -⟩ := processPR_eq_some hpr
  exact ⟨hd, hr⟩

/-- Witness for C1: in the spec's concrete scenario exactly the 2-hour,
2-review PR is accepted, and it satisfies the admission invariant. -/
theorem detail_item_admission_invariant_witness :
    itemC1 ∈ process_single_repository envC1 repoC1 50 ∧
    process_single_repository envC1 repoC1 50 = [itemC1] ∧
    (1 < itemC1.duration_hours ∧ 1 ≤ itemC1.reviews.totalCount) :=
  ⟨by rw [envC1_eval]; exact List.mem_singleton.mpr rfl, envC1_eval,
   detail_item_admission_invariant envC1 repoC1 50 itemC1
     (by rw [envC1_eval]; exact List.mem_singleton.mpr rfl)⟩

/-- Environment for C10: one PR passes the duration gate and has 2
reviews, but the detail-fields query fails. -/
def envC10 : PREnv :=
  { pages := [some ⟨[some ⟨9, PRState.merged, 0, some 7200, none⟩], false⟩],
    reviewCount := fun _ => some ⟨2⟩,
    detailFields := fun _ => none,
    commentsCount := fun _ => some ⟨4⟩,
    participantsCount := fun _ => some ⟨5⟩ }

def repoC10 : RepoId := ⟨"oten", "nten"⟩

def prC10 : PRNode := ⟨9, PRState.merged, 0, some 7200, none⟩

/-- C10: a failed detail-fields query is a hard gate — every retained item
carries a successfully fetched detail record, and a PR whose detail fetch
fails is discarded entirely (`processPR` yields nothing for it). -/
theorem details_failure_discards_item
    (env : PREnv) (repo : RepoId) (maxPRs : Nat) :
    (∀ item ∈ process_single_repository env repo maxPRs,
        env.detailFields item.node.number = some item.details) ∧
    (∀ pr, env.detailFields pr.number = none →
        processPR env repo pr = none) := by
  constructor
  · intro item h
    obtain ⟨pr, hpr⟩ := mem_process_single_repository h
    obtain ⟨hnode, -, -, hdet, -, -⟩ := processPR_eq_some hpr
    rw [hnode]
    exact hdet
  · intro pr hnone
    unfold processPR
    split
    next => rfl
    next endTime hend =>
      split
      next =>
        split
        next => rfl
        next rc hrc =>
          split
          next => rw [hnone]
          next => rfl
      next => rfl

/-- Witness for C10: with the detail fetch failing, the 2-hour, 2-review
PR yields nothing and the repository's result list is empty. -/
theorem details_failure_discards_item_witness :
    processPR envC10 repoC10 prC10 = none ∧
    process_single_repository envC10 repoC10 50 = [] :=
  ⟨(details_failure_discards_item envC10 repoC10 50).2 prC10 rfl,
   by norm_num [process_single_repository, envC10, repoC10, processPages,
     processNodes, processPR, prEndTime, durationHours]⟩

/-- The same environment with the comment-count and participant-count
queries always failing. -/
def dropEnrichment (env : PREnv) : PREnv :=
  { env with commentsCount := fun _ => none, participantsCount := fun _ => none }

/-- Remove the two tolerated enrichment counters from a record. -/
def stripEnrichment (item : DetailItem) : DetailItem :=
  { item with comments := none, participants := none }

theorem processPR_dropEnrichment (env : PREnv) (repo : RepoId) (pr : PRNode) :
    processPR (dropEnrichment env) repo pr
      = (processPR env repo pr).map stripEnrichment := by
  cases hend : prEndTime pr with
  | none => simp [processPR, dropEnrichment, hend]
  | some endTime =>
    by_cases hd : 1 < durationHours pr.createdAt endTime
    · cases hrc : env.reviewCount pr.number with
      | none => simp [processPR, dropEnrichment, hend, hd, hrc]
      | some rc =>
        by_cases hrev : 1 ≤ rc.totalCount
        · cases hdet : env.detailFields pr.number with
          | none => simp [processPR, dropEnrichment, hend, hd, hrc, hrev, hdet]
          | some det =>
            simp [processPR, dropEnrichment, stripEnrichment, hend, hd, hrc,
              hrev, hdet]
        · simp [processPR, dropEnrichment, hend, hd, hrc, hrev]
    · simp [processPR, dropEnrichment, hend, hd]

theorem processNodes_dropEnrichment (env : PREnv) (repo : RepoId) :
    ∀ (nodes : List (Option PRNode)) (q : Nat),
      processNodes (dropEnrichment env) repo nodes q
        = (processNodes env repo nodes q).map stripEnrichment
  | _, 0 => by simp [processNodes]
  | [], _ + 1 => by simp [processNodes]
  | none :: rest, q + 1 => by
      rw [processNodes, processNodes]
      exact processNodes_dropEnrichment env repo rest (q + 1)
  | some pr :: rest, q + 1 => by
      rw [processNodes, processNodes, processPR_dropEnrichment env repo pr]
      cases hpr : processPR env repo pr with
      | none =>
        simp only [hpr, Option.map_none']
        exact processNodes_dropEnrichment env repo rest (q + 1)
      | some item =>
        simp only [hpr, Option.map_some', List.map_cons]
        rw [processNodes_dropEnrichment env repo rest q]

theorem processPages_dropEnrichment (env : PREnv) (repo : RepoId) :
    ∀ (pages : List (Option PRPage)) (q : Nat),
      processPages (dropEnrichment env) repo pages q
        = (processPages env repo pages q).map stripEnrichment
  | _, 0 => by simp [processPages]
  | [], _ + 1 => by simp [processPages]
  | none :: _, _ + 1 => by simp [processPages]
  | some pg :: rest, q + 1 => by
      simp only [processPages, processNodes_dropEnrichment env repo pg.nodes (q + 1),
        List.length_map]
      by_cases hne : pg.nodes.isEmpty
      · simp [hne]
      · simp only [hne, Bool.false_eq_true, if_false]
        by_cases hc : pg.hasNextPage
            && decide ((processNodes env repo pg.nodes (q + 1)).length < q + 1)
        · simp only [hc, if_true, List.map_append]
          rw [processPages_dropEnrichment env repo rest
            (q + 1 - (processNodes env repo pg.nodes (q + 1)).length)]
        · simp only [hc, Bool.false_eq_true, if_false]

/-- C8 (amended): failing comment/participant fetches never exclude an
item — killing both queries yields exactly the same result list record
for record, with the two counters left absent (`none`, not a zero
counter) — and downstream analysis reads the absent counters as zero. -/
theorem enrichment_failure_tolerated
    (env : PREnv) (repo : RepoId) (maxPRs : Nat) :
    process_single_repository (dropEnrichment env) repo maxPRs
      = (process_single_repository env repo maxPRs).map stripEnrichment ∧
    ∀ item ∈ process_single_repository (dropEnrichment env) repo maxPRs,
      item.comments = none ∧ item.participants = none ∧
      counterOrZero item.comments = 0 ∧ counterOrZero item.participants = 0 := by
  have hmain : process_single_repository (dropEnrichment env) repo maxPRs
      = (process_single_repository env repo maxPRs).map stripEnrichment :=
    processPages_dropEnrichment env repo env.pages maxPRs
  refine ⟨hmain, ?_⟩
  intro item h
  rw [hmain] at h
  obtain ⟨y, -, rfl⟩ := List.mem_map.mp h
  exact ⟨rfl, rfl, rfl, rfl⟩

/-- Environment for the C8 witness: everything succeeds for one 2-hour,
2-review PR before the enrichment queries are killed. -/
def envC8 : PREnv :=
  { pages := [some ⟨[some ⟨7, PRState.merged, 0, some 7200, none⟩], false⟩],
    reviewCount := fun _ => some ⟨2⟩,
    detailFields := fun _ => some ⟨"t", "b", 1, 2, 3⟩,
    commentsCount := fun _ => some ⟨4⟩,
    participantsCount := fun _ => some ⟨5⟩ }

def repoC8 : RepoId := ⟨"oeight", "neight"⟩

/-- The record retained from `envC8` once enrichment fails. -/
def itemC8 : DetailItem :=
  { node := ⟨7, PRState.merged, 0, some 7200, none⟩,
    details := ⟨"t", "b", 1, 2, 3⟩,
    reviews := ⟨2⟩, comments := none, participants := none,
    repository := repoC8, duration_hours := 2 }

/-- Evaluation of the C8 environment with the enrichment queries killed:
the PR is still retained, with no comments/participants counters. -/
theorem envC8_eval :
    process_single_repository (dropEnrichment envC8) repoC8 50 = [itemC8] := by
  norm_num [process_single_repository, dropEnrichment, envC8, repoC8, itemC8,
    processPages, processNodes, processPR, prEndTime, durationHours,
    DetailItem.mk.injEq, Counter.mk.injEq, PRDetails.mk.injEq, PRNode.mk.injEq]

/-- Witness for the amended C8: the item survives the failed enrichment
fetches with both counters absent, read as zero downstream. -/
theorem enrichment_failure_tolerated_witness :
    itemC8 ∈ process_single_repository (dropEnrichment envC8) repoC8 50 ∧
    (itemC8.comments = none ∧ itemC8.participants = none ∧
     counterOrZero itemC8.comments = 0 ∧ counterOrZero itemC8.participants = 0) :=
  ⟨by rw [envC8_eval]; exact List.mem_singleton.mpr rfl,
   (enrichment_failure_tolerated envC8 repoC8 50).2 itemC8
     (by rw [envC8_eval]; exact List.mem_singleton.mpr rfl)⟩

/-- Counterexample to C8 as stated: with the comment-count fetch failing,
the retained record's `comments` field is simply absent (`none`); it is
*not* a counter that "defaults to zero" (`some ⟨0⟩`) in the record. -/
theorem comments_counter_absent_counterexample :
    (process_single_repository (dropEnrichment envC8) repoC8 50).map
        DetailItem.comments = [none] ∧
    (process_single_repository (dropEnrichment envC8) repoC8 50).map
        DetailItem.comments ≠ [some ⟨0⟩] := by
  rw [envC8_eval]
  refine ⟨rfl, by simp [itemC8]⟩

/-! ## Entity Paginator (`gather_repository_data`, utils.py lines 151-264)

Phase 1 walks the repository search pagination and collects candidate
repositories; phase 2 resolves the pull-request totals concurrently and
keeps, in completion order, the candidates with at least 100 PRs until
the limit is reached. -/

/-- A raw node of the search connection; `login = none` models a node
whose `owner`/`login` identity fields are missing or null (such nodes are
dropped silently). -/
structure RawRepo where
  login : Option String
  name : String
deriving DecidableEq, Repr

/-- One response page of the search query (`nodes` + `pageInfo`). -/
structure SearchPage where
  nodes : List (Option RawRepo)
  hasNextPage : Bool
deriving DecidableEq, Repr

/-- A candidate repository in `potential_repos` / `repositories`:
identity fields plus the `pullRequests.totalCount` attached by the
secondary lookup (`none` until attached). -/
structure Repo where
  login : String
  name : String
  prTotal : Option Nat
deriving DecidableEq, Repr

/-- The identity filter of
`potential_repos.extend(r for r in repo_nodes if r and "owner" in r and r["owner"] and "login" in r["owner"])`. -/
def filterNodes (nodes : List (Option RawRepo)) : List Repo :=
  nodes.filterMap (fun r? =>
    r?.bind (fun r => r.login.map (fun l => ⟨l, r.name, none⟩)))

/-- Phase 1, the `while len(potential_repos) < limit * 5 and
len(potential_repos) < 1000` candidate-gathering loop.  Each list entry is
one `fetch_top_repositories` result; `none` (a failed or invalid batch)
leaves the pool unchanged and retries, a page extends the pool with its
identity-filtered nodes, and the loop ends when the condition fails, the
remote has no next page, or (in this finite model) the response list is
exhausted. -/
def gatherPool (limit : Nat) : List (Option SearchPage) → List Repo → List Repo
  | [], acc => acc
  | resp :: rest, acc =>
    if acc.length < limit * 5 ∧ acc.length < 1000 then
      match resp with
      | none => gatherPool limit rest acc
      | some pg =>
        let acc' := acc ++ filterNodes pg.nodes
        if pg.hasNextPage then gatherPool limit rest acc' else acc'
    else acc

/-- One completed `fetch_repository_pr_count` future: `(owner, name,
result)`, where the result is `none` when the fetch failed or the
repository was null, and `some k` is the resolved
`pullRequests.totalCount`. -/
structure CheckEvent where
  owner : String
  name : String
  result : Option Nat
deriving DecidableEq, Repr

/-- Phase 2, the `for future in concurrent.futures.as_completed(tasks)`
loop: events arrive in completion order; once `len(repositories) >=
limit` the loop breaks (cancelling the rest); a candidate with resolved
PR count `>= 100` is looked up in the pool and appended with the count
attached as `pullRequests.totalCount`. -/
def filterRepos (pool : List Repo) (limit : Nat) :
    List CheckEvent → List Repo → List Repo
  | [], acc => acc
  | ev :: rest, acc =>
    if limit ≤ acc.length then acc
    else
      match ev.result with
      | none => filterRepos pool limit rest acc
      | some k =>
        if 100 ≤ k then
          match pool.find? (fun r => r.login == ev.owner && r.name == ev.name) with
          | some r =>
              filterRepos pool limit rest (acc ++ [{ r with prTotal := some k }])
          | none => filterRepos pool limit rest acc
        else filterRepos pool limit rest acc

/-- `gather_repository_data(limit, ...)`: candidate pool gathering, the
empty-pool early return, the concurrent PR-count filter, and the final
`repositories[:limit]` trim. -/
def gather_repository_data (pages : List (Option SearchPage))
    (events : List CheckEvent) (limit : Nat) : List Repo :=
  if (gatherPool limit pages []).isEmpty then []
  else (filterRepos (gatherPool limit pages []) limit events []).take limit

theorem filterRepos_invariant (pool : List Repo) (limit : Nat) :
    ∀ (events : List CheckEvent) (acc : List Repo),
      (∀ r ∈ acc, ∃ k, r.prTotal = some k ∧ 100 ≤ k) →
      ∀ r ∈ filterRepos pool limit events acc,
        ∃ k, r.prTotal = some k ∧ 100 ≤ k
  | [], acc, hacc => hacc
  | ev :: rest, acc, hacc => by
      rw [filterRepos]
      split
      next => exact hacc
      next =>
        split
        next => exact filterRepos_invariant pool limit rest acc hacc
        next k hres =>
          split
          next hk =>
            split
            next r hr =>
              refine filterRepos_invariant pool limit rest _ ?_
              intro x hx
              rcases List.mem_append.mp hx with hx | hx
              · exact hacc x hx
              · rw [List.mem_singleton.mp hx]
                exact ⟨k, rfl, hk⟩
            next => exact filterRepos_invariant pool limit rest acc hacc
          next => exact filterRepos_invariant pool limit rest acc hacc

/-- The spec's mock paged source: 5 candidate entities across 2 pages. -/
def pagesC6 : List (Option SearchPage) :=
  [some ⟨[some ⟨some "o1", "r1"⟩, some ⟨some "o2", "r2"⟩,
          some ⟨some "o3", "r3"⟩], true⟩,
   some ⟨[some ⟨some "o4", "r4"⟩, some ⟨some "o5", "r5"⟩], false⟩]

/-- Secondary-lookup completions, in completion order (not pool order):
exactly three candidates resolve to `pullRequests.totalCount ≥ 100`. -/
def eventsC6 : List CheckEvent :=
  [⟨"o2", "r2", some 50⟩, ⟨"o1", "r1", some 150⟩, ⟨"o4", "r4", none⟩,
   ⟨"o3", "r3", some 100⟩, ⟨"o5", "r5", some 200⟩]

/-- C6: the list returned by `gather_repository_data` never exceeds the
requested limit and every repository in it carries a resolved
`pullRequests.totalCount ≥ 100`; in the spec's concrete scenario
(target 3, pool of 5 with exactly 3 passing) the result is exactly those
three entities, in completion order. -/
theorem paginator_limit_and_secondary_filter :
    (∀ (pages : List (Option SearchPage)) (events : List CheckEvent)
        (limit : Nat),
      (gather_repository_data pages events limit).length ≤ limit ∧
      ∀ r ∈ gather_repository_data pages events limit,
        ∃ k, r.prTotal = some k ∧ 100 ≤ k) ∧
    gather_repository_data pagesC6 eventsC6 3 =
      [⟨"o1", "r1", some 150⟩, ⟨"o3", "r3", some 100⟩,
       ⟨"o5", "r5", some 200⟩] := by
  constructor
  · intro pages events limit
    constructor
    · rw [gather_repository_data]
      split
      next => simp
      next =>
        rw [List.length_take]
        omega
    · intro r hr
      rw [gather_repository_data] at hr
      split at hr
      next => exact absurd hr (List.not_mem_nil r)
      next =>
        refine filterRepos_invariant (gatherPool limit pages []) limit events []
          (by simp) r (List.mem_of_mem_take hr)
  · decide

/-- Witness for C6, instantiating the universal part at the concrete
scenario: result length within the limit, and the first selected entity
has a resolved PR count of at least 100. -/
theorem paginator_limit_and_secondary_filter_witness :
    (gather_repository_data pagesC6 eventsC6 3).length ≤ 3 ∧
    ∃ k, (Repo.mk "o1" "r1" (some 150)).prTotal = some k ∧ 100 ≤ k :=
  ⟨(paginator_limit_and_secondary_filter.1 pagesC6 eventsC6 3).1,
   (paginator_limit_and_secondary_filter.1 pagesC6 eventsC6 3).2
     ⟨"o1", "r1", some 150⟩ (by decide)⟩

/-! ## Checkpoint Store (`gather_pull_requests` lines 416-425 and
`gather_repository_data` lines 234-241)

The accumulating list (`all_prs` / `repositories`) only ever grows by
appending a completed batch; whenever its length crosses a multiple of
the checkpoint interval (50 for pull requests, 10 for repositories) the
*entire* accumulated list is written to a fresh
`..._temp_{len}.csv` file.  `runCheckpoints` replays a run from the
sequence of completed batches and returns the contents of the successive
checkpoint writes. -/

def runCheckpoints {α : Type} (interval : Nat) :
    List (List α) → List α → List (List α)
  | [], _ => []
  | batch :: rest, acc =>
    if batch.isEmpty then runCheckpoints interval rest acc
    else
      if (acc ++ batch).length % interval = 0 then
        (acc ++ batch) :: runCheckpoints interval rest (acc ++ batch)
      else runCheckpoints interval rest (acc ++ batch)

/-- Every checkpoint written after the accumulator holds `acc` is a full
snapshot extending `acc`. -/
theorem runCheckpoints_extends {α : Type} (interval : Nat) :
    ∀ (batches : List (List α)) (acc : List α),
      ∀ cp ∈ runCheckpoints interval batches acc, ∃ t, cp = acc ++ t
  | [], acc => by simp [runCheckpoints]
  | batch :: rest, acc => by
      intro cp hcp
      rw [runCheckpoints] at hcp
      split at hcp
      next => exact runCheckpoints_extends interval rest acc cp hcp
      next =>
        split at hcp
        next =>
          rcases List.mem_cons.mp hcp with hcp | hcp
          · exact ⟨batch, hcp⟩
          · obtain ⟨t, ht⟩ :=
              runCheckpoints_extends interval rest (acc ++ batch) cp hcp
            exact ⟨batch ++ t, by rw [ht, List.append_assoc]⟩
        next =>
          obtain ⟨t, ht⟩ :=
            runCheckpoints_extends interval rest (acc ++ batch) cp hcp
          exact ⟨batch ++ t, by rw [ht, List.append_assoc]⟩

/-- Checkpoints are written in inclusion order: each one contains every
earlier one. -/
theorem runCheckpoints_pairwise {α : Type} (interval : Nat) :
    ∀ (batches : List (List α)) (acc : List α),
      (runCheckpoints interval batches acc).Pairwise (· ⊆ ·)
  | [], acc => by simp [runCheckpoints]
  | batch :: rest, acc => by
      rw [runCheckpoints]
      split
      next => exact runCheckpoints_pairwise interval rest acc
      next =>
        split
        next =>
          refine List.pairwise_cons.mpr ⟨?_, runCheckpoints_pairwise interval rest (acc ++ batch)⟩
          intro cp hcp
          obtain ⟨t, ht⟩ :=
            runCheckpoints_extends interval rest (acc ++ batch) cp hcp
          rw [ht]
          exact List.subset_append_left _ _
        next => exact runCheckpoints_pairwise interval rest (acc ++ batch)

/-- C7: each checkpoint write stores the complete accumulated set (a full
snapshot), so across one run the checkpoints are monotone — every record
of an earlier checkpoint is present in every later one — and the latest
checkpoint alone contains every previously checkpointed record. -/
theorem checkpoint_monotone_snapshot {α : Type} (interval : Nat)
    (batches : List (List α)) :
    (runCheckpoints interval batches []).Pairwise (· ⊆ ·) ∧
    ∀ cp ∈ runCheckpoints interval batches [],
      ∀ last, (runCheckpoints interval batches []).getLast? = some last →
        cp ⊆ last := by
  have hpw := runCheckpoints_pairwise interval batches ([] : List α)
  refine ⟨hpw, ?_⟩
  intro cp hcp last hlast
  rw [List.getLast?_eq_getElem?] at hlast
  obtain ⟨hlt, hval⟩ := List.getElem?_eq_some_iff.mp hlast
  obtain ⟨i, hi, hival⟩ := List.getElem_of_mem hcp
  by_cases heq : i = (runCheckpoints interval batches []).length - 1
  · subst heq
    have hcl : cp = last := hival.symm.trans hval
    exact hcl ▸ List.Subset.refl cp
  · have hij : i < (runCheckpoints interval batches []).length - 1 := by omega
    have := (List.pairwise_iff_getElem.mp hpw) i _ hi hlt hij
    rw [hival, hval] at this
    exact this

/-- Witness for C7 on a concrete run (interval 2, two batches): the
checkpoints are `[[1,2], [1,2,3,4]]`, and the earlier one is contained in
the latest. -/
theorem checkpoint_monotone_snapshot_witness :
    (runCheckpoints 2 [[1, 2], [3, 4]] ([] : List Nat)).Pairwise (· ⊆ ·) ∧
    ([1, 2] : List Nat) ⊆ [1, 2, 3, 4] :=
  ⟨(checkpoint_monotone_snapshot 2 [[1, 2], [3, 4]]).1,
   (checkpoint_monotone_snapshot 2 [[1, 2], [3, 4]]).2 [1, 2] (by decide)
     [1, 2, 3, 4] (by decide)⟩

/-! ## Tabular Record Sink/Loader (`save_to_csv`, `safe_json_loads`,
`load_from_csv`, utils.py lines 445-488)

Serialized cells are modelled at the character level (`List Char`).
`save_to_csv` delegates to `pandas.DataFrame.to_csv`, which renders a
nested counter dict with Python `repr` — single quotes; an earlier
producer revision emitted JSON — double quotes.  `safe_json_loads` first
replaces every single quote by a double quote and attempts JSON parsing,
then falls back to `ast.literal_eval`, and finally returns the raw value
unchanged.  The two library parsers are modelled on the exact grammar
fragment the nested counters exercise. -/

def lbrace : Char := Char.ofNat 123

def rbrace : Char := Char.ofNat 125

def squote : Char := Char.ofNat 39

def dquote : Char := Char.ofNat 34

def colonChar : Char := Char.ofNat 58

def spaceChar : Char := Char.ofNat 32

def digitChar (d : Nat) : Char := Char.ofNat (48 + d)

def charVal (c : Char) : Nat := c.toNat - 48

def isDigitChar (c : Char) : Bool :=
  decide (48 ≤ c.toNat) && decide (c.toNat ≤ 57)

/-- The decimal rendering of a natural number (`str(n)` in Python),
most-significant digit first. -/
def natToChars (n : Nat) : List Char :=
  if n = 0 then [digitChar 0] else ((Nat.digits 10 n).map digitChar).reverse

/-- The decimal-integer fragment shared by `json.loads` and
`ast.literal_eval`: a non-empty all-digit string. -/
def parseNatChars (cs : List Char) : Option Nat :=
  if cs.isEmpty then none
  else if cs.all isDigitChar then
    some (cs.foldl (fun acc c => acc * 10 + charVal c) 0)
  else none

/-- Consume an expected leading character sequence. -/
def stripLeading : List Char → List Char → Option (List Char)
  | [], cs => some cs
  | _ :: _, [] => none
  | p :: ps, c :: cs => if c = p then stripLeading ps cs else none

/-- The characters opening a double-quoted counter object, up to and
including the space after the colon. -/
def jsonKeyChars : List Char :=
  [lbrace, dquote] ++ "totalCount".toList ++ [dquote, colonChar, spaceChar]

/-- The characters opening a single-quoted counter object. -/
def litKeyChars : List Char :=
  [lbrace, squote] ++ "totalCount".toList ++ [squote, colonChar, spaceChar]

/-- The fragment of `json.loads` the nested counters exercise: exactly a
double-quoted counter object with a decimal value. -/
def jsonCounterParse (cs : List Char) : Option Nat :=
  match stripLeading jsonKeyChars cs with
  | none => none
  | some rest =>
    match rest.getLast? with
    | none => none
    | some c => if c = rbrace then parseNatChars rest.dropLast else none

/-- The fragment of `ast.literal_eval` the nested counters exercise:
exactly a single-quoted counter dict literal with a decimal value. -/
def litCounterParse (cs : List Char) : Option Nat :=
  match stripLeading litKeyChars cs with
  | none => none
  | some rest =>
    match rest.getLast? with
    | none => none
    | some c => if c = rbrace then parseNatChars rest.dropLast else none

/-- The Python-repr (single-quoted) serialization of the counter, as a
pandas cell for a dict value. -/
def singleQuoted (n : Nat) : List Char := litKeyChars ++ natToChars n ++ [rbrace]

/-- The JSON (double-quoted) serialization of the same counter. -/
def doubleQuoted (n : Nat) : List Char := jsonKeyChars ++ natToChars n ++ [rbrace]

/-- A CSV cell as `safe_json_loads` receives it: a string, or a
non-string value (e.g. a float `NaN`), on which `.replace` raises
`AttributeError` and `ast.literal_eval` raises `ValueError`/`TypeError`,
both caught. -/
inductive Cell where
  | strCell (s : List Char)
  | nonStr (v : Int)
deriving DecidableEq, Repr

/-- The best-effort result of `safe_json_loads`: a parsed counter, or the
raw input passed through unchanged. -/
inductive Parsed where
  | counter (n : Nat)
  | cell (c : Cell)
deriving DecidableEq, Repr

/-- `s.replace("'", '"')`. -/
def replaceQuotes (cs : List Char) : List Char :=
  cs.map (fun c => if c = squote then dquote else c)

/-- `safe_json_loads` (utils.py lines 450-460): try
`json.loads(s.replace(...))`, fall back to `ast.literal_eval(s)`, and
return the raw value when both fail or the input is not a string. -/
def safe_json_loads : Cell → Parsed
  | Cell.nonStr v => Parsed.cell (Cell.nonStr v)
  | Cell.strCell s =>
    match jsonCounterParse (replaceQuotes s) with
    | some n => Parsed.counter n
    | none =>
      match litCounterParse s with
      | some n => Parsed.counter n
      | none => Parsed.cell (Cell.strCell s)

theorem charVal_digitChar : ∀ d, d < 10 → charVal (digitChar d) = d := by decide

theorem isDigitChar_digitChar : ∀ d, d < 10 → isDigitChar (digitChar d) = true := by
  decide

theorem digitChar_ne_squote : ∀ d, d < 10 → digitChar d ≠ squote := by decide

theorem mem_natToChars {n : Nat} {c : Char} (h : c ∈ natToChars n) :
    ∃ d, d < 10 ∧ c = digitChar d := by
  unfold natToChars at h
  split at h
  · rw [List.mem_singleton.mp h]
    exact ⟨0, by norm_num, rfl⟩
  · rw [List.mem_reverse] at h
    obtain ⟨d, hd, rfl⟩ := List.mem_map.mp h
    exact ⟨d, Nat.digits_lt_base (by norm_num) hd, rfl⟩

theorem foldl_congr_mem {α β : Type} :
    ∀ (l : List α) (f g : β → α → β) (a : β),
      (∀ b x, x ∈ l → f b x = g b x) → l.foldl f a = l.foldl g a
  | [], _, _, _, _ => rfl
  | x :: xs, f, g, a, h => by
      rw [List.foldl_cons, List.foldl_cons, h a x (List.mem_cons_self x xs)]
      exact foldl_congr_mem xs f g _ (fun b y hy => h b y (List.mem_cons_of_mem x hy))

theorem foldl_mul_add (l : List Nat) (a : Nat) :
    l.reverse.foldl (fun acc d => acc * 10 + d) a
      = a * 10 ^ l.length + Nat.ofDigits 10 l := by
  induction l generalizing a with
  | nil => simp [Nat.ofDigits_nil]
  | cons d ds ih =>
    rw [List.reverse_cons, List.foldl_append, ih, Nat.ofDigits_cons]
    simp only [List.foldl_cons, List.foldl_nil, List.length_cons, Nat.cast_id]
    ring

/-- Decimal round trip: parsing the rendering of `n` gives back `n`. -/
theorem parseNatChars_natToChars (n : Nat) :
    parseNatChars (natToChars n) = some n := by
  by_cases hn : n = 0
  · subst hn
    decide
  · unfold parseNatChars natToChars
    rw [if_neg hn]
    have hne : (((Nat.digits 10 n).map digitChar).reverse).isEmpty = false := by
      simp [List.isEmpty_iff, Nat.digits_ne_nil_iff_ne_zero, hn]
    rw [hne]
    simp only [Bool.false_eq_true, if_false]
    have hall : (((Nat.digits 10 n).map digitChar).reverse).all isDigitChar = true := by
      rw [List.all_eq_true]
      intro c hc
      rw [List.mem_reverse] at hc
      obtain ⟨d, hd, rfl⟩ := List.mem_map.mp hc
      exact isDigitChar_digitChar d (Nat.digits_lt_base (by norm_num) hd)
    rw [if_pos hall]
    congr 1
    rw [← List.map_reverse, List.foldl_map]
    rw [foldl_congr_mem ((Nat.digits 10 n).reverse) _
      (fun acc d => acc * 10 + d) 0 ?hcongr]
    case hcongr =>
      intro b x hx
      rw [List.mem_reverse] at hx
      rw [charVal_digitChar x (Nat.digits_lt_base (by norm_num) hx)]
    rw [foldl_mul_add, Nat.ofDigits_digits]
    ring

theorem stripLeading_append :
    ∀ (p cs : List Char), stripLeading p (p ++ cs) = some cs
  | [], _ => rfl
  | c :: ps, cs => by
      rw [List.cons_append, stripLeading, if_pos rfl]
      exact stripLeading_append ps cs

theorem jsonCounterParse_doubleQuoted (n : Nat) :
    jsonCounterParse (doubleQuoted n) = some n := by
  unfold jsonCounterParse doubleQuoted
  rw [List.append_assoc, stripLeading_append]
  simp only [List.getLast?_concat, List.dropLast_concat, if_pos rfl]
  exact parseNatChars_natToChars n

theorem litCounterParse_singleQuoted (n : Nat) :
    litCounterParse (singleQuoted n) = some n := by
  unfold litCounterParse singleQuoted
  rw [List.append_assoc, stripLeading_append]
  simp only [List.getLast?_concat, List.dropLast_concat, if_pos rfl]
  exact parseNatChars_natToChars n

theorem replaceQuotes_append (a b : List Char) :
    replaceQuotes (a ++ b) = replaceQuotes a ++ replaceQuotes b :=
  List.map_append _ a b

theorem replaceQuotes_natToChars (n : Nat) :
    replaceQuotes (natToChars n) = natToChars n := by
  unfold replaceQuotes
  have h : ∀ c ∈ natToChars n, (if c = squote then dquote else c) = id c := by
    intro c hc
    obtain ⟨d, hd, rfl⟩ := mem_natToChars hc
    rw [if_neg (digitChar_ne_squote d hd)]
    rfl
  rw [List.map_congr_left h, List.map_id]

/-- Quote replacement turns the Python-repr dialect into the JSON one. -/
theorem replaceQuotes_singleQuoted (n : Nat) :
    replaceQuotes (singleQuoted n) = doubleQuoted n := by
  unfold singleQuoted doubleQuoted
  rw [replaceQuotes_append, replaceQuotes_append, replaceQuotes_natToChars]
  have h1 : replaceQuotes litKeyChars = jsonKeyChars := by decide
  have h2 : replaceQuotes [rbrace] = [rbrace] := by decide
  rw [h1, h2]

/-- The JSON dialect is untouched by quote replacement. -/
theorem replaceQuotes_doubleQuoted (n : Nat) :
    replaceQuotes (doubleQuoted n) = doubleQuoted n := by
  unfold doubleQuoted
  rw [replaceQuotes_append, replaceQuotes_append, replaceQuotes_natToChars]
  have h1 : replaceQuotes jsonKeyChars = jsonKeyChars := by decide
  have h2 : replaceQuotes [rbrace] = [rbrace] := by decide
  rw [h1, h2]

theorem safe_json_loads_doubleQuoted (n : Nat) :
    safe_json_loads (Cell.strCell (doubleQuoted n)) = Parsed.counter n := by
  rw [safe_json_loads, replaceQuotes_doubleQuoted, jsonCounterParse_doubleQuoted]

theorem safe_json_loads_singleQuoted (n : Nat) :
    safe_json_loads (Cell.strCell (singleQuoted n)) = Parsed.counter n := by
  rw [safe_json_loads, replaceQuotes_singleQuoted, jsonCounterParse_doubleQuoted]

/-- The nested counters of one persisted record (reviews, comments,
participants). -/
structure RowCounters where
  reviews : Nat
  comments : Nat
  participants : Nat
deriving DecidableEq, Repr

/-- The two serialization dialects of the nested counters produced by the
two producer revisions. -/
inductive Dialect where
  | jsonStyle
  | reprStyle
deriving DecidableEq, Repr

def serCounter : Dialect → Nat → List Char
  | Dialect.jsonStyle, n => doubleQuoted n
  | Dialect.reprStyle, n => singleQuoted n

/-- The Sink's serialization of one record's nested counter columns. -/
def sinkRow (d : Dialect) (r : RowCounters) : List (List Char) :=
  [serCounter d r.reviews, serCounter d r.comments, serCounter d r.participants]

/-- `save_to_csv`: one serialized row per record. -/
def sinkRows (d : Dialect) (rows : List RowCounters) : List (List (List Char)) :=
  rows.map (sinkRow d)

/-- `load_from_csv`: apply the `safe_json_loads` converter to every
nested-counter cell. -/
def loadRows (table : List (List (List Char))) : List (List Parsed) :=
  table.map (fun row => row.map (fun s => safe_json_loads (Cell.strCell s)))

/-- C5: for every sequence of records with nested counters, loading the
CSV written by the sink reproduces the original counter values, in both
serialization dialects (double-quoted JSON style and single-quoted
Python-repr style). -/
theorem csv_counter_roundtrip (d : Dialect) (rows : List RowCounters) :
    loadRows (sinkRows d rows)
      = rows.map (fun r => [Parsed.counter r.reviews, Parsed.counter r.comments,
                            Parsed.counter r.participants]) := by
  unfold loadRows sinkRows
  rw [List.map_map]
  apply List.map_congr_left
  intro r _
  cases d <;>
    simp [Function.comp, sinkRow, serCounter, safe_json_loads_doubleQuoted,
      safe_json_loads_singleQuoted]

/-- C9: `safe_json_loads` is total and best-effort over arbitrary cells —
it always returns either a parsed counter or the raw input unchanged; a
non-string input passes through unchanged; on a string it tries the JSON
parse of the quote-normalized text first, falls back to the literal
parse, and if both fail returns the raw string unchanged. -/
theorem safe_json_loads_total_fallback (c : Cell) :
    ((∃ n, safe_json_loads c = Parsed.counter n) ∨
      safe_json_loads c = Parsed.cell c) ∧
    (∀ v, c = Cell.nonStr v → safe_json_loads c = Parsed.cell c) ∧
    (∀ s, c = Cell.strCell s →
      (∀ n, jsonCounterParse (replaceQuotes s) = some n →
          safe_json_loads c = Parsed.counter n) ∧
      (jsonCounterParse (replaceQuotes s) = none →
        (∀ n, litCounterParse s = some n →
            safe_json_loads c = Parsed.counter n) ∧
        (litCounterParse s = none →
            safe_json_loads c = Parsed.cell c))) := by
  cases c with
  | nonStr v =>
    refine ⟨Or.inr rfl, fun _ _ => rfl, ?_⟩
    intro s hs
    exact absurd hs (by simp)
  | strCell s =>
    have hstep : ∀ n, jsonCounterParse (replaceQuotes s) = some n →
        safe_json_loads (Cell.strCell s) = Parsed.counter n := by
      intro n hn
      rw [safe_json_loads, hn]
    have hstep2 : jsonCounterParse (replaceQuotes s) = none →
        ∀ n, litCounterParse s = some n →
          safe_json_loads (Cell.strCell s) = Parsed.counter n := by
      intro hnone n hn
      rw [safe_json_loads, hnone, hn]
    have hstep3 : jsonCounterParse (replaceQuotes s) = none →
        litCounterParse s = none →
          safe_json_loads (Cell.strCell s) = Parsed.cell (Cell.strCell s) := by
      intro hnone hnone2
      rw [safe_json_loads, hnone, hnone2]
    refine ⟨?_, fun v hv => absurd hv (by simp), ?_⟩
    · cases hj : jsonCounterParse (replaceQuotes s) with
      | some n => exact Or.inl ⟨n, hstep n hj⟩
      | none =>
        cases hl : litCounterParse s with
        | some n => exact Or.inl ⟨n, hstep2 hj n hl⟩
        | none => exact Or.inr (hstep3 hj hl)
    · intro s' hs'
      cases hs'
      exact ⟨hstep, fun hj => ⟨hstep2 hj, hstep3 hj⟩⟩

/-- Witness for C9 at a concrete unparsable string: both parses fail and
the raw value passes through unchanged. -/
theorem safe_json_loads_total_fallback_witness :
    safe_json_loads (Cell.strCell ("oops".toList))
      = Parsed.cell (Cell.strCell ("oops".toList)) :=
  (((safe_json_loads_total_fallback (Cell.strCell ("oops".toList))).2.2
      ("oops".toList) rfl).2 (by decide)).2 (by decide)

end S3
